import Mathlib

/-!
Verification of the chunk-streaming infinite-canvas engine
(`just-shoyo-activities-v2`): deterministic chunk/plane generation,
plane LRU cache, texture loader with LRU eviction and callback fan-out,
fade animator, and throttled chunk-set updates.

All numeric values are modelled with exact rationals (`ℚ`); JavaScript
32-bit integer semantics (`|0`, `^`, `>>> 0`) are modelled with explicit
`% 2^32` arithmetic.  `Math.sin` is abstracted as an arbitrary function
`sinq : ℚ → ℚ`: every property proved below holds for an arbitrary
`sinq`, hence in particular for the real sine.
-/

/- Rational arithmetic must evaluate inside `decide` proofs; Batteries marks
these operations `@[irreducible]` for elaboration performance only. -/
attribute [local semireducible] Rat.add Rat.mul Rat.inv Rat.sub

set_option maxRecDepth 1000000
set_option maxHeartbeats 2000000

namespace Shoyo

/-! ### Constants (src/lib/constants.ts, texture-manager.ts, fade-manager, chunk-utils) -/

def CHUNK_SIZE : ℚ := 110
def RENDER_DISTANCE : Nat := 2
def CHUNK_FADE_MARGIN : Nat := 1
def PLANES_PER_CHUNK : Nat := 12
def PLANE_SIZE_MIN : ℚ := 12
def PLANE_SIZE_MAX : ℚ := 20
def MAX_PLANE_CACHE : Nat := 256
def MAX_CONCURRENT_LOADS : Nat := 8
def MAX_CACHE_SIZE : Nat := 750
def FADE_IN_SPEED : ℚ := 8 / 100
def FADE_OUT_SPEED : ℚ := 1 / 10

/-! ### JavaScript integer / array semantics helpers -/

/-- Unsigned 32-bit view of an integer (JavaScript `>>> 0` on an Int32 value,
and the bit pattern fed to bitwise operators). -/
def u32 (i : Int) : Nat := (i % (2 ^ 32 : Int)).toNat

/-- JavaScript `ToInt32`: reinterpret the low 32 bits as a signed value. -/
def toInt32 (i : Int) : Int :=
  let u := u32 i
  if u < 2 ^ 31 then (u : Int) else (u : Int) - 2 ^ 32

/-- JavaScript `%` on integers (remainder truncated toward zero). -/
def jsMod (a b : Int) : Int := Int.tmod a b

/-- JavaScript array indexing `l[i]`: an element for an integer index in
range, `undefined` (here `none`) otherwise. -/
def jsIndex {α : Type} (l : List α) (i : Int) : Option α :=
  if 0 ≤ i then l.get? i.toNat else none

/-! ### src/lib/utils.ts -/

/-- `hashString` (djb2 variant): `hash = 5381`, then for each UTF-16 unit
`hash = (hash * 33) ^ str.charCodeAt(i)` with JavaScript bitwise-Int32
semantics, and finally `hash >>> 0`. -/
def hashString (s : String) : Nat :=
  u32 (s.data.foldl
    (fun h c => toInt32 (Int.ofNat (Nat.xor (u32 (h * 33)) c.toNat))) 5381)

/-- `seededRandom`: `x = sin(seed * 9999.9) * 99999.9; return x - floor(x)`.
The sine is the abstract parameter `sinq`. -/
def seededRandom (sinq : ℚ → ℚ) (seed : ℚ) : ℚ :=
  Int.fract (sinq (seed * (99999 / 10)) * (999999 / 10))

/-! ### src/lib/chunk-utils.ts : generateChunkPlanes -/

structure Vec3 where
  x : ℚ
  y : ℚ
  z : ℚ
deriving DecidableEq, Repr, Inhabited

structure PlaneData where
  id : String
  position : Vec3
  scale : Vec3
  mediaIndex : Int
deriving DecidableEq, Repr, Inhabited

/-- The string key `"cx,cy,cz"` used both for the seed and the plane cache. -/
def mkChunkKey (cx cy cz : Int) : String :=
  toString cx ++ "," ++ toString cy ++ "," ++ toString cz

/-- Body of the `for i in 0..PLANES_PER_CHUNK` loop in `generateChunkPlanes`:
sub-seed `s = seed + i*1000`, `r(n) = seededRandom(s + n)`. -/
def chunkPlane (sinq : ℚ → ℚ) (cx cy cz : Int) (i : Nat) : PlaneData :=
  let seed : Nat := hashString (mkChunkKey cx cy cz)
  let s : ℚ := (seed : ℚ) + (i : ℚ) * 1000
  let r : ℚ → ℚ := fun n => seededRandom sinq (s + n)
  let size : ℚ := PLANE_SIZE_MIN + r 4 * (PLANE_SIZE_MAX - PLANE_SIZE_MIN)
  { id := toString cx ++ "-" ++ toString cy ++ "-" ++ toString cz ++
      "-" ++ toString i
    position := ⟨(cx : ℚ) * CHUNK_SIZE + r 0 * CHUNK_SIZE,
                 (cy : ℚ) * CHUNK_SIZE + r 1 * CHUNK_SIZE,
                 (cz : ℚ) * CHUNK_SIZE + r 2 * CHUNK_SIZE⟩
    scale := ⟨size, size, 1⟩
    mediaIndex := ⌊r 5 * 1000000⌋ }

/-- `generateChunkPlanes(cx, cy, cz)`: `PLANES_PER_CHUNK` planes, seeded by
`hashString` of the coordinate key, per-plane sub-seed `seed + i*1000`. -/
def generateChunkPlanes (sinq : ℚ → ℚ) (cx cy cz : Int) : List PlaneData :=
  (List.range PLANES_PER_CHUNK).map (chunkPlane sinq cx cy cz)

/-- The constant-zero stand-in for `Math.sin`, used to evaluate the model on
concrete inputs. -/
def sinZero : ℚ → ℚ := fun _ => 0

/-! ### Scene composer media selection (scene.tsx, Chunk) -/

structure MediaItem where
  url : String
  width : ℚ
  height : ℚ
  title : Option String
deriving DecidableEq, Repr

/-- `media[plane.mediaIndex % media.length]` in the `Chunk` component. -/
def selectMediaItem (media : List MediaItem) (p : PlaneData) : Option MediaItem :=
  jsIndex media (jsMod p.mediaIndex (media.length : Int))

/-! ### Generator lemmas -/

theorem seededRandom_nonneg (sinq : ℚ → ℚ) (seed : ℚ) :
    0 ≤ seededRandom sinq seed := Int.fract_nonneg _

theorem seededRandom_lt_one (sinq : ℚ → ℚ) (seed : ℚ) :
    seededRandom sinq seed < 1 := Int.fract_lt_one _

/-- C5: `generateChunkPlanes` is pure and deterministic for all integer
coordinates (including negative ones): repeated calls give identical lists,
each list has exactly `PLANES_PER_CHUNK` planes, every plane's position lies
inside the chunk's extent (`chunkOrigin + offset` with offset in
`[0, CHUNK_SIZE)` per axis), and every scale component (x and y) lies in
`[PLANE_SIZE_MIN, PLANE_SIZE_MAX]`. -/
theorem generateChunkPlanes_pure_and_in_bounds (sinq : ℚ → ℚ) (cx cy cz : Int) :
    generateChunkPlanes sinq cx cy cz = generateChunkPlanes sinq cx cy cz ∧
    (generateChunkPlanes sinq cx cy cz).length = PLANES_PER_CHUNK ∧
    ∀ p ∈ generateChunkPlanes sinq cx cy cz,
      ((cx : ℚ) * CHUNK_SIZE ≤ p.position.x ∧
        p.position.x < (cx : ℚ) * CHUNK_SIZE + CHUNK_SIZE) ∧
      ((cy : ℚ) * CHUNK_SIZE ≤ p.position.y ∧
        p.position.y < (cy : ℚ) * CHUNK_SIZE + CHUNK_SIZE) ∧
      ((cz : ℚ) * CHUNK_SIZE ≤ p.position.z ∧
        p.position.z < (cz : ℚ) * CHUNK_SIZE + CHUNK_SIZE) ∧
      (PLANE_SIZE_MIN ≤ p.scale.x ∧ p.scale.x ≤ PLANE_SIZE_MAX) ∧
      (PLANE_SIZE_MIN ≤ p.scale.y ∧ p.scale.y ≤ PLANE_SIZE_MAX) := by
  refine ⟨rfl, by simp only [generateChunkPlanes, List.length_map, List.length_range], ?_⟩
  intro p hp
  simp only [generateChunkPlanes, List.mem_map, List.mem_range] at hp
  obtain ⟨i, _, rfl⟩ := hp
  have hb : ∀ q : ℚ, 0 ≤ seededRandom sinq q ∧ seededRandom sinq q < 1 :=
    fun q => ⟨seededRandom_nonneg sinq q, seededRandom_lt_one sinq q⟩
  simp only [chunkPlane, CHUNK_SIZE, PLANE_SIZE_MIN, PLANE_SIZE_MAX]
  constructor
  · have h := hb ((hashString (mkChunkKey cx cy cz) : ℚ) + (i : ℚ) * 1000 + 0)
    constructor <;> nlinarith [h.1, h.2]
  constructor
  · have h := hb ((hashString (mkChunkKey cx cy cz) : ℚ) + (i : ℚ) * 1000 + 1)
    constructor <;> nlinarith [h.1, h.2]
  constructor
  · have h := hb ((hashString (mkChunkKey cx cy cz) : ℚ) + (i : ℚ) * 1000 + 2)
    constructor <;> nlinarith [h.1, h.2]
  have h := hb ((hashString (mkChunkKey cx cy cz) : ℚ) + (i : ℚ) * 1000 + 4)
  constructor <;> constructor <;> nlinarith [h.1, h.2]

/-- First plane of chunk `(-1, 0, 0)` under the constant-zero sine, used to
witness the generator theorems on a concrete input. -/
def samplePlane : PlaneData := (generateChunkPlanes sinZero (-1) 0 0).getD 0 default

/-- Witness for C5: the membership hypothesis is discharged at the concrete
chunk `(-1, 0, 0)` (a negative coordinate) with the constant-zero sine. -/
theorem generateChunkPlanes_pure_and_in_bounds_witness :
    samplePlane ∈ generateChunkPlanes sinZero (-1) 0 0 ∧
    (((-1 : Int) : ℚ) * CHUNK_SIZE ≤ samplePlane.position.x ∧
      samplePlane.position.x < ((-1 : Int) : ℚ) * CHUNK_SIZE + CHUNK_SIZE) ∧
    (PLANE_SIZE_MIN ≤ samplePlane.scale.x ∧ samplePlane.scale.x ≤ PLANE_SIZE_MAX) :=
  ⟨by decide,
    ((generateChunkPlanes_pure_and_in_bounds sinZero (-1) 0 0).2.2 samplePlane
      (by decide)).1,
    ((generateChunkPlanes_pure_and_in_bounds sinZero (-1) 0 0).2.2 samplePlane
      (by decide)).2.2.2.1⟩

/-- C10: every plane's `mediaIndex` is a non-negative integer, so for a
non-empty media list the modulo-reduced lookup
`media[plane.mediaIndex % media.length]` always selects an existing item:
the defensive skip branch in the `Chunk` component is unreachable. -/
theorem mediaIndex_nonneg_and_selection_total (sinq : ℚ → ℚ)
    (media : List MediaItem) (cx cy cz : Int) (hm : media ≠ []) :
    ∀ p ∈ generateChunkPlanes sinq cx cy cz,
      0 ≤ p.mediaIndex ∧ (selectMediaItem media p).isSome := by
  intro p hp
  simp only [generateChunkPlanes, List.mem_map, List.mem_range] at hp
  obtain ⟨i, _, rfl⟩ := hp
  have h0 : 0 ≤ (chunkPlane sinq cx cy cz i).mediaIndex := by
    simp only [chunkPlane]
    exact Int.le_floor.mpr (by
      push_cast
      exact mul_nonneg (seededRandom_nonneg _ _) (by norm_num))
  refine ⟨h0, ?_⟩
  have hlen : 0 < (media.length : Int) := by
    simpa using List.length_pos.mpr hm
  have hr0 : 0 ≤ jsMod (chunkPlane sinq cx cy cz i).mediaIndex (media.length : Int) :=
    Int.tmod_nonneg _ h0
  have hrlt : jsMod (chunkPlane sinq cx cy cz i).mediaIndex (media.length : Int) <
      (media.length : Int) := Int.tmod_lt_of_pos _ hlen
  have hn : (jsMod (chunkPlane sinq cx cy cz i).mediaIndex
      (media.length : Int)).toNat < media.length := by omega
  simp only [selectMediaItem, jsIndex, hr0, if_pos]
  rw [List.get?_eq_getElem?, List.getElem?_eq_getElem hn]
  rfl

/-- Single-item media pool used to witness the selection theorem. -/
def sampleMedia : List MediaItem := [⟨"img-0", 4, 3, none⟩]

/-- Witness for C10: hypotheses discharged at a one-item media list and the
first plane of chunk `(-1, 0, 0)` under the constant-zero sine. -/
theorem mediaIndex_nonneg_and_selection_total_witness :
    sampleMedia ≠ [] ∧ samplePlane ∈ generateChunkPlanes sinZero (-1) 0 0 ∧
    (0 ≤ samplePlane.mediaIndex ∧ (selectMediaItem sampleMedia samplePlane).isSome) :=
  ⟨by decide, by decide,
    mediaIndex_nonneg_and_selection_total sinZero sampleMedia (-1) 0 0
      (by decide) samplePlane (by decide)⟩

/-! ### src/lib/constants.ts : computeChunkOffsets -/

structure ChunkOffset where
  dx : Int
  dy : Int
  dz : Int
deriving DecidableEq, Repr

/-- `Math.max(Math.abs(dx), Math.abs(dy), Math.abs(dz))`: the Chebyshev
distance used both for the neighbourhood filter and the sort. -/
def chebDist (o : ChunkOffset) : Int := max (|o.dx|) (max (|o.dy|) (|o.dz|))

/-- The loop range `for d = -maxDist; d <= maxDist; d++`. -/
def rangeInt (m : Nat) : List Int :=
  (List.range (2 * m + 1)).map (fun (i : Nat) => (i : Int) - (m : Int))

/-- The comparator `distA - distB` of `computeChunkOffsets`: a stable
ascending sort by Chebyshev distance. -/
def offsetLE (a b : ChunkOffset) : Prop := chebDist a ≤ chebDist b

instance : DecidableRel offsetLE := fun _ _ => Int.decLe _ _

instance : IsTotal ChunkOffset offsetLE := ⟨fun _ _ => le_total _ _⟩

instance : IsTrans ChunkOffset offsetLE := ⟨fun _ _ _ => le_trans⟩

/-- `computeChunkOffsets(maxDist)`: triple loop over `[-maxDist, maxDist]`,
keep offsets with Chebyshev distance at most `maxDist`, then (stably) sort
by distance ascending. -/
def computeChunkOffsets (maxDist : Nat) : List ChunkOffset :=
  ((rangeInt maxDist).flatMap (fun dx =>
    (rangeInt maxDist).flatMap (fun dy =>
      (rangeInt maxDist).filterMap (fun dz =>
        if chebDist ⟨dx, dy, dz⟩ ≤ (maxDist : Int) then some ⟨dx, dy, dz⟩
        else none)))).insertionSort offsetLE

/-- `CHUNK_OFFSETS = computeChunkOffsets(RENDER_DISTANCE + CHUNK_FADE_MARGIN)`. -/
def CHUNK_OFFSETS : List ChunkOffset :=
  computeChunkOffsets (RENDER_DISTANCE + CHUNK_FADE_MARGIN)

/-- Integer chunk coordinate of a camera position:
`Math.floor(basePos / CHUNK_SIZE)` per axis (scene.tsx). -/
def chunkCoordOf (p : Vec3) : Int × Int × Int :=
  (Rat.floor (p.x / CHUNK_SIZE), Rat.floor (p.y / CHUNK_SIZE),
    Rat.floor (p.z / CHUNK_SIZE))

/-- The chunk list installed by `setChunks` when an update is applied for
centre coordinate `c`: `CHUNK_OFFSETS` recentred on `c` (scene.tsx). -/
def appliedChunkSet (c : Int × Int × Int) : List (Int × Int × Int) :=
  CHUNK_OFFSETS.map (fun o => (c.1 + o.dx, c.2.1 + o.dy, c.2.2 + o.dz))

theorem mem_rangeInt {m : Nat} {x : Int} :
    x ∈ rangeInt m ↔ -(m : Int) ≤ x ∧ x ≤ (m : Int) := by
  constructor
  · intro hx
    obtain ⟨i, hi, hxe⟩ := List.mem_map.mp hx
    have hlt := List.mem_range.mp hi
    subst hxe
    omega
  · intro h
    exact List.mem_map.mpr ⟨(x + m).toNat, List.mem_range.mpr (by omega), by omega⟩

/-- C9: with the camera at rest at the origin the applied chunk set is the
fixed neighbourhood-offset list recentred on `(0,0,0)`; that list contains
exactly the offsets of Chebyshev distance at most
`RENDER_DISTANCE + CHUNK_FADE_MARGIN` and is ordered by Chebyshev distance
ascending. -/
theorem activeChunkSet_at_origin (o : ChunkOffset) :
    appliedChunkSet (chunkCoordOf ⟨0, 0, 0⟩) =
      CHUNK_OFFSETS.map (fun q => (q.dx, q.dy, q.dz)) ∧
    (o ∈ CHUNK_OFFSETS ↔
      chebDist o ≤ ((RENDER_DISTANCE + CHUNK_FADE_MARGIN : Nat) : Int)) ∧
    List.Sorted offsetLE CHUNK_OFFSETS := by
  refine ⟨?_, ?_, ?_⟩
  · have h0 : chunkCoordOf ⟨0, 0, 0⟩ = (0, 0, 0) := by decide
    rw [h0]
    simp [appliedChunkSet]
  · unfold CHUNK_OFFSETS computeChunkOffsets
    rw [List.mem_insertionSort]
    simp only [List.mem_flatMap, List.mem_filterMap]
    constructor
    · rintro ⟨dx, _, dy, _, dz, _, hif⟩
      by_cases hc : chebDist ⟨dx, dy, dz⟩ ≤ ((RENDER_DISTANCE + CHUNK_FADE_MARGIN : Nat) : Int)
      · rw [if_pos hc] at hif
        cases hif
        exact hc
      · rw [if_neg hc] at hif
        cases hif
    · intro hc
      have hb : |o.dx| ≤ ((RENDER_DISTANCE + CHUNK_FADE_MARGIN : Nat) : Int) ∧
          |o.dy| ≤ ((RENDER_DISTANCE + CHUNK_FADE_MARGIN : Nat) : Int) ∧
          |o.dz| ≤ ((RENDER_DISTANCE + CHUNK_FADE_MARGIN : Nat) : Int) := by
        unfold chebDist at hc
        refine ⟨le_trans (le_max_left _ _) hc, ?_, ?_⟩
        · exact le_trans (le_trans (le_max_left _ _) (le_max_right _ _)) hc
        · exact le_trans (le_trans (le_max_right _ _) (le_max_right _ _)) hc
      refine ⟨o.dx, mem_rangeInt.mpr (by cases abs_le.mp hb.1; constructor <;> assumption),
        o.dy, mem_rangeInt.mpr (by cases abs_le.mp hb.2.1; constructor <;> assumption),
        o.dz, mem_rangeInt.mpr (by cases abs_le.mp hb.2.2; constructor <;> assumption), ?_⟩
      rw [if_pos hc]
  · exact List.sorted_insertionSort offsetLE _

/-! ### Association lists modelling JavaScript `Map` (insertion order kept,
`set` updates in place, `delete` removes the entry). -/

def lookupKey {κ ν : Type} [DecidableEq κ] : List (κ × ν) → κ → Option ν
  | [], _ => none
  | (k', v) :: rest, k => if k' = k then some v else lookupKey rest k

def eraseKey {κ ν : Type} [DecidableEq κ] : List (κ × ν) → κ → List (κ × ν)
  | [], _ => []
  | (k', v) :: rest, k => if k' = k then rest else (k', v) :: eraseKey rest k

def setKey {κ ν : Type} [DecidableEq κ] : List (κ × ν) → κ → ν → List (κ × ν)
  | [], k, v => [(k, v)]
  | (k', v') :: rest, k, v =>
      if k' = k then (k', v) :: rest else (k', v') :: setKey rest k v

theorem lookupKey_eq_none {κ ν : Type} [DecidableEq κ] {l : List (κ × ν)} {k : κ}
    (h : k ∉ l.map Prod.fst) : lookupKey l k = none := by
  induction l with
  | nil => rfl
  | cons e rest ih =>
    obtain ⟨k', v⟩ := e
    simp only [List.map_cons, List.mem_cons] at h
    push_neg at h
    simp only [lookupKey, if_neg (Ne.symm h.1), ih h.2]

theorem lookupKey_append {κ ν : Type} [DecidableEq κ] {l₁ : List (κ × ν)}
    (l₂ : List (κ × ν)) {k : κ} (h : k ∉ l₁.map Prod.fst) :
    lookupKey (l₁ ++ l₂) k = lookupKey l₂ k := by
  induction l₁ with
  | nil => rfl
  | cons e rest ih =>
    obtain ⟨k', v⟩ := e
    simp only [List.map_cons, List.mem_cons] at h
    push_neg at h
    simp only [List.cons_append, lookupKey, if_neg (Ne.symm h.1)]
    exact ih h.2

/-! ### src/lib/chunk-utils.ts : generateChunkPlanesCached (plane LRU cache) -/

/-- The cache key of a chunk coordinate triple. -/
def chunkKeyOf (q : Int × Int × Int) : String := mkChunkKey q.1 q.2.1 q.2.2

/-- The cache entry a fresh generation inserts for coordinate `q`. -/
def chunkEntryOf (sinq : ℚ → ℚ) (q : Int × Int × Int) :
    String × List PlaneData :=
  (chunkKeyOf q, generateChunkPlanes sinq q.1 q.2.1 q.2.2)

/-- `generateChunkPlanesCached`: on hit delete + re-insert at the end (LRU
promotion) and return the cached list; on miss generate, insert at the end,
and drop oldest entries from the front while the size exceeds
`MAX_PLANE_CACHE` (the `while` loop deletes the first key repeatedly). -/
def generateChunkPlanesCached (sinq : ℚ → ℚ) (cx cy cz : Int)
    (cache : List (String × List PlaneData)) :
    List PlaneData × List (String × List PlaneData) :=
  let key := mkChunkKey cx cy cz
  match lookupKey cache key with
  | some cached => (cached, eraseKey cache key ++ [(key, cached)])
  | none =>
      let planes := generateChunkPlanes sinq cx cy cz
      let c := cache ++ [(key, planes)]
      (planes, c.drop (c.length - MAX_PLANE_CACHE))

theorem generateChunkPlanesCached_hit (sinq : ℚ → ℚ) (cx cy cz : Int)
    (cache : List (String × List PlaneData)) (v : List PlaneData)
    (h : lookupKey cache (mkChunkKey cx cy cz) = some v) :
    generateChunkPlanesCached sinq cx cy cz cache =
      (v, eraseKey cache (mkChunkKey cx cy cz) ++ [(mkChunkKey cx cy cz, v)]) := by
  unfold generateChunkPlanesCached
  dsimp only
  rw [h]

theorem generateChunkPlanesCached_miss (sinq : ℚ → ℚ) (cx cy cz : Int)
    (cache : List (String × List PlaneData))
    (h : lookupKey cache (mkChunkKey cx cy cz) = none) :
    generateChunkPlanesCached sinq cx cy cz cache =
      (generateChunkPlanes sinq cx cy cz,
        (cache ++ [(mkChunkKey cx cy cz, generateChunkPlanes sinq cx cy cz)]).drop
          ((cache ++ [(mkChunkKey cx cy cz,
            generateChunkPlanes sinq cx cy cz)]).length - MAX_PLANE_CACHE)) := by
  unfold generateChunkPlanesCached
  dsimp only
  rw [h]

/-- One cached lookup for a coordinate triple. -/
def lruStep (sinq : ℚ → ℚ) (cache : List (String × List PlaneData))
    (q : Int × Int × Int) : List (String × List PlaneData) :=
  (generateChunkPlanesCached sinq q.1 q.2.1 q.2.2 cache).2

/-- Folding a sequence of cached lookups over a starting cache. -/
def lruRun (sinq : ℚ → ℚ) (coords : List (Int × Int × Int))
    (cache : List (String × List PlaneData)) : List (String × List PlaneData) :=
  coords.foldl (lruStep sinq) cache

theorem lruStep_miss (sinq : ℚ → ℚ) (q : Int × Int × Int)
    (cache : List (String × List PlaneData))
    (h : lookupKey cache (chunkKeyOf q) = none) :
    lruStep sinq cache q =
      (cache ++ [chunkEntryOf sinq q]).drop
        ((cache ++ [chunkEntryOf sinq q]).length - MAX_PLANE_CACHE) := by
  show (generateChunkPlanesCached sinq q.1 q.2.1 q.2.2 cache).2 = _
  rw [generateChunkPlanesCached_miss sinq q.1 q.2.1 q.2.2 cache h]
  unfold chunkEntryOf chunkKeyOf
  rfl

theorem lruRun_append (sinq : ℚ → ℚ) (coords : List (Int × Int × Int))
    (q : Int × Int × Int) (cache : List (String × List PlaneData)) :
    lruRun sinq (coords ++ [q]) cache =
      lruStep sinq (lruRun sinq coords cache) q := by
  simp [lruRun, List.foldl_append]

theorem keys_map_chunkEntryOf (sinq : ℚ → ℚ) (coords : List (Int × Int × Int)) :
    (coords.map (chunkEntryOf sinq)).map Prod.fst = coords.map chunkKeyOf := by
  rw [List.map_map]
  rfl

/-- Distinct fresh inserts from the empty cache leave exactly the last
`MAX_PLANE_CACHE` generated entries, in insertion order. -/
theorem lruRun_fresh (sinq : ℚ → ℚ) (coords : List (Int × Int × Int))
    (h : (coords.map chunkKeyOf).Nodup) :
    lruRun sinq coords [] =
      (coords.map (chunkEntryOf sinq)).drop (coords.length - MAX_PLANE_CACHE) := by
  induction coords using List.reverseRecOn with
  | nil => rfl
  | append_singleton l q ih =>
    have hsplit : (l.map chunkKeyOf).Nodup ∧ chunkKeyOf q ∉ l.map chunkKeyOf := by
      rw [List.map_append] at h
      have h1 := List.Nodup.of_append_left h
      have h2 := List.disjoint_of_nodup_append h
      exact ⟨h1, fun hm => h2 hm (by simp)⟩
    rw [lruRun_append, ih hsplit.1]
    have hnotin :
        chunkKeyOf q ∉ ((l.map (chunkEntryOf sinq)).drop
          (l.length - MAX_PLANE_CACHE)).map Prod.fst := by
      intro hm
      apply hsplit.2
      have hsub : List.Sublist
          (((l.map (chunkEntryOf sinq)).drop (l.length - MAX_PLANE_CACHE)).map Prod.fst)
          ((l.map (chunkEntryOf sinq)).map Prod.fst) :=
        (List.drop_sublist _ _).map _
      have hmem := hsub.mem hm
      rwa [keys_map_chunkEntryOf] at hmem
    rw [lruStep_miss sinq q _ (lookupKey_eq_none hnotin)]
    rw [List.map_append, List.map_singleton]
    simp only [List.length_append, List.length_singleton, List.length_drop,
      List.length_map]
    rw [List.drop_append_eq_append_drop, List.drop_append_eq_append_drop,
      List.drop_drop]
    simp only [List.length_drop, List.length_map]
    refine congrArg₂ (fun a b => a ++ b)
      (congrArg (fun n => List.drop n (l.map (chunkEntryOf sinq))) ?_)
      (congrArg (fun n => List.drop n [chunkEntryOf sinq q]) ?_) <;> omega

theorem lookupKey_cons_eq {κ ν : Type} [DecidableEq κ] (k : κ) (v : ν)
    (l : List (κ × ν)) : lookupKey ((k, v) :: l) k = some v := by
  simp [lookupKey]

theorem lookupKey_cons_ne {κ ν : Type} [DecidableEq κ] {k k' : κ} (v : ν)
    (l : List (κ × ν)) (h : k' ≠ k) :
    lookupKey ((k', v) :: l) k = lookupKey l k := by
  simp [lookupKey, h]

theorem eraseKey_cons_eq {κ ν : Type} [DecidableEq κ] (k : κ) (v : ν)
    (l : List (κ × ν)) : eraseKey ((k, v) :: l) k = l := by
  simp [eraseKey]

theorem lruStep_hit (sinq : ℚ → ℚ) (q : Int × Int × Int)
    (cache : List (String × List PlaneData)) (v : List PlaneData)
    (h : lookupKey cache (chunkKeyOf q) = some v) :
    lruStep sinq cache q =
      eraseKey cache (chunkKeyOf q) ++ [(chunkKeyOf q, v)] := by
  show (generateChunkPlanesCached sinq q.1 q.2.1 q.2.2 cache).2 = _
  rw [generateChunkPlanesCached_hit sinq q.1 q.2.1 q.2.2 cache v h]
  unfold chunkKeyOf
  rfl

/-- C6: the plane cache is a true LRU of capacity `MAX_PLANE_CACHE` (256).
With `q0, q1, mid..., qN` being `MAX_PLANE_CACHE + 1` chunk coordinates with
distinct keys: (i) after the first 256 inserts, looking `q0` up again is a
hit returning exactly the previously generated list; (ii) inserting all 257
keys in order evicts the least-recently-used key `q0`, which no longer hits;
(iii) if `q0` is accessed (promoted) before the 257th insert, `q0` survives
that insert's eviction and `q1` — now the least recently used — is evicted
instead. -/
theorem planeCache_true_lru (sinq : ℚ → ℚ) (q0 q1 qN : Int × Int × Int)
    (mid : List (Int × Int × Int))
    (hmid : mid.length = MAX_PLANE_CACHE - 2)
    (hnd : ((q0 :: q1 :: (mid ++ [qN])).map chunkKeyOf).Nodup) :
    (generateChunkPlanesCached sinq q0.1 q0.2.1 q0.2.2
        (lruRun sinq (q0 :: q1 :: mid) [])).1 =
      generateChunkPlanes sinq q0.1 q0.2.1 q0.2.2 ∧
    lookupKey (lruRun sinq (q0 :: q1 :: (mid ++ [qN])) []) (chunkKeyOf q0) =
      none ∧
    lookupKey (lruStep sinq
        (lruStep sinq (lruRun sinq (q0 :: q1 :: mid) []) q0) qN)
      (chunkKeyOf q0) = some (generateChunkPlanes sinq q0.1 q0.2.1 q0.2.2) ∧
    lookupKey (lruStep sinq
        (lruStep sinq (lruRun sinq (q0 :: q1 :: mid) []) q0) qN)
      (chunkKeyOf q1) = none := by
  have hcap : MAX_PLANE_CACHE = 256 := rfl
  have hnd' := hnd
  simp only [List.map_cons, List.map_append, List.map_singleton, List.map_nil,
    List.nodup_cons, List.mem_cons, List.mem_append, List.mem_singleton,
    List.not_mem_nil, or_false] at hnd'
  push_neg at hnd'
  obtain ⟨⟨h01, h0mid, h0N⟩, ⟨h1mid, h1N⟩, hndrest⟩ := hnd'
  have hNmid : chunkKeyOf qN ∉ mid.map chunkKeyOf := by
    intro hm
    have hd := List.disjoint_of_nodup_append hndrest
    exact hd hm (by simp)
  have hndfirst : ((q0 :: q1 :: mid).map chunkKeyOf).Nodup := by
    simp only [List.map_cons, List.nodup_cons, List.mem_cons]
    push_neg
    exact ⟨⟨h01, h0mid⟩, h1mid, List.Nodup.of_append_left hndrest⟩
  have hfirstlen : (q0 :: q1 :: mid).length = MAX_PLANE_CACHE := by
    simp only [List.length_cons, hmid, hcap]
  have hC : lruRun sinq (q0 :: q1 :: mid) [] =
      (q0 :: q1 :: mid).map (chunkEntryOf sinq) := by
    rw [lruRun_fresh sinq _ hndfirst, hfirstlen, Nat.sub_self, List.drop_zero]
  have hlk : lookupKey ((q0 :: q1 :: mid).map (chunkEntryOf sinq))
      (chunkKeyOf q0) = some (generateChunkPlanes sinq q0.1 q0.2.1 q0.2.2) := by
    rw [List.map_cons]
    exact lookupKey_cons_eq _ _ _
  -- the promoted cache after the LRU access of q0
  have hC' : lruStep sinq (lruRun sinq (q0 :: q1 :: mid) []) q0 =
      (q1 :: mid).map (chunkEntryOf sinq) ++
        [(chunkKeyOf q0, generateChunkPlanes sinq q0.1 q0.2.1 q0.2.2)] := by
    rw [hC, lruStep_hit sinq q0 _ _ hlk, List.map_cons]
    simp only [chunkEntryOf]
    rw [eraseKey_cons_eq]
  have hmissN : lookupKey ((q1 :: mid).map (chunkEntryOf sinq) ++
      [(chunkKeyOf q0, generateChunkPlanes sinq q0.1 q0.2.1 q0.2.2)])
      (chunkKeyOf qN) = none := by
    rw [lookupKey_append]
    · rw [lookupKey_cons_ne _ _ h0N]
      rfl
    · rw [keys_map_chunkEntryOf]
      simp only [List.map_cons, List.mem_cons]
      push_neg
      exact ⟨fun he => h1N he.symm, hNmid⟩
  have hstep2 : lruStep sinq
      ((q1 :: mid).map (chunkEntryOf sinq) ++
        [(chunkKeyOf q0, generateChunkPlanes sinq q0.1 q0.2.1 q0.2.2)]) qN =
      (mid.map (chunkEntryOf sinq) ++
        [(chunkKeyOf q0, generateChunkPlanes sinq q0.1 q0.2.1 q0.2.2)]) ++
        [chunkEntryOf sinq qN] := by
    rw [lruStep_miss sinq qN _ hmissN]
    have hd : ((q1 :: mid).map (chunkEntryOf sinq) ++
        [(chunkKeyOf q0, generateChunkPlanes sinq q0.1 q0.2.1 q0.2.2)] ++
        [chunkEntryOf sinq qN]).length - MAX_PLANE_CACHE = 1 := by
      simp only [List.length_append, List.length_map, List.length_cons,
        List.length_singleton, List.length_nil, hmid, hcap]
    rw [hd]
    simp only [List.map_cons, List.cons_append, List.drop_succ_cons,
      List.drop_zero, List.append_assoc]
  refine ⟨?_, ?_, ?_, ?_⟩
  · rw [hC, generateChunkPlanesCached_hit sinq q0.1 q0.2.1 q0.2.2 _ _ hlk]
  · rw [lruRun_fresh sinq _ hnd]
    have hlen : (q0 :: q1 :: (mid ++ [qN])).length - MAX_PLANE_CACHE = 1 := by
      simp only [List.length_cons, List.length_append, List.length_singleton,
        List.length_nil, hmid, hcap]
    rw [hlen, List.map_cons, List.drop_succ_cons, List.drop_zero]
    apply lookupKey_eq_none
    rw [keys_map_chunkEntryOf]
    simp only [List.map_cons, List.map_append, List.map_singleton, List.map_nil,
      List.mem_cons, List.mem_append, List.mem_singleton, List.not_mem_nil,
      or_false]
    push_neg
    exact ⟨h01, h0mid, h0N⟩
  · rw [hC', hstep2, List.append_assoc]
    rw [lookupKey_append]
    · rw [List.singleton_append, lookupKey_cons_eq]
    · rw [keys_map_chunkEntryOf]
      exact h0mid
  · rw [hC', hstep2, List.append_assoc]
    rw [lookupKey_append]
    · rw [List.singleton_append, lookupKey_cons_ne _ _ h01]
      rw [show chunkEntryOf sinq qN =
        (chunkKeyOf qN, generateChunkPlanes sinq qN.1 qN.2.1 qN.2.2) from rfl]
      rw [lookupKey_cons_ne _ _ (fun he => h1N he.symm)]
      rfl
    · rw [keys_map_chunkEntryOf]
      exact h1mid

/-- Executable strict lexicographic comparison of character lists by code
point, used to certify key distinctness on concrete inputs cheaply. -/
def charListLt : List Char → List Char → Bool
  | _, [] => false
  | [], _ :: _ => true
  | a :: as, b :: bs =>
      decide (a.toNat < b.toNat) ||
        (a.toNat == b.toNat && charListLt as bs)

theorem charListLt_irrefl : ∀ l : List Char, charListLt l l = false := by
  intro l
  induction l with
  | nil => rfl
  | cons a as ih =>
    simp only [charListLt, ih, Bool.and_false, Bool.or_false]
    simp

theorem charListLt_trans : ∀ {a b c : List Char}, charListLt a b = true →
    charListLt b c = true → charListLt a c = true := by
  intro a
  induction a with
  | nil =>
    intro b c hab hbc
    cases c with
    | nil =>
      cases b with
      | nil => exact hab
      | cons y ys => exact absurd hbc (by simp [charListLt])
    | cons z zs => rfl
  | cons x xs ih =>
    intro b c hab hbc
    cases b with
    | nil => exact absurd hab (by simp [charListLt])
    | cons y ys =>
      cases c with
      | nil => exact absurd hbc (by simp [charListLt])
      | cons z zs =>
        simp only [charListLt, Bool.or_eq_true, Bool.and_eq_true,
          decide_eq_true_eq, beq_iff_eq] at hab hbc ⊢
        rcases hab with hxy | ⟨hxy, hxs⟩
        · rcases hbc with hyz | ⟨hyz, _⟩
          · exact Or.inl (lt_trans hxy hyz)
          · exact Or.inl (hyz ▸ hxy)
        · rcases hbc with hyz | ⟨hyz, hys⟩
          · exact Or.inl (hxy ▸ hyz)
          · exact Or.inr ⟨hxy.trans hyz, ih hxs hys⟩

/-- Strict string comparison by code points. -/
def strLtB (a b : String) : Bool := charListLt a.data b.data

theorem strLtB_ne {a b : String} (h : strLtB a b = true) : a ≠ b := by
  intro he
  subst he
  rw [strLtB, charListLt_irrefl] at h
  cases h

/-- Executable check that a list of strings is strictly increasing. -/
def strChainLt : List String → Bool
  | a :: b :: rest => strLtB a b && strChainLt (b :: rest)
  | _ => true

theorem sorted_of_strChainLt (l : List String) (h : strChainLt l = true) :
    List.Sorted (fun a b : String => strLtB a b = true) l := by
  induction l with
  | nil => exact List.sorted_nil
  | cons a t ih =>
    cases t with
    | nil => exact List.sorted_singleton a
    | cons b rest =>
      rw [strChainLt, Bool.and_eq_true] at h
      have hs := ih h.2
      rw [List.sorted_cons]
      refine ⟨?_, hs⟩
      intro x hx
      rcases List.mem_cons.mp hx with rfl | hx
      · exact h.1
      · exact charListLt_trans h.1 ((List.sorted_cons.mp hs).1 x hx)

theorem nodup_of_strChainLt (l : List String) (h : strChainLt l = true) :
    l.Nodup :=
  (sorted_of_strChainLt l h).imp (fun hlt => strLtB_ne hlt)

/-- 254 middle coordinates filling the plane cache in the witness run. -/
def lruWitnessMid : List (Int × Int × Int) :=
  (List.range 254).map (fun (i : Nat) => ((i : Int) + 102, 0, 0))

/-- Witness for C6: the hypotheses (254 middle coordinates, 257 pairwise
distinct keys) are discharged by computation at the concrete coordinates
`(100,0,0), (101,0,0), ..., (355,0,0), (356,0,0)`. -/
theorem planeCache_true_lru_witness :
    (lruWitnessMid.length = MAX_PLANE_CACHE - 2 ∧
      ((((100, 0, 0) : Int × Int × Int) :: ((101, 0, 0) : Int × Int × Int) ::
        (lruWitnessMid ++ [((356, 0, 0) : Int × Int × Int)])).map
          chunkKeyOf).Nodup) ∧
    ((generateChunkPlanesCached sinZero 100 0 0
        (lruRun sinZero ((100, 0, 0) :: (101, 0, 0) :: lruWitnessMid) [])).1 =
      generateChunkPlanes sinZero 100 0 0 ∧
    lookupKey (lruRun sinZero
        ((100, 0, 0) :: (101, 0, 0) :: (lruWitnessMid ++ [(356, 0, 0)])) [])
      (chunkKeyOf (100, 0, 0)) = none ∧
    lookupKey (lruStep sinZero
        (lruStep sinZero
          (lruRun sinZero ((100, 0, 0) :: (101, 0, 0) :: lruWitnessMid) [])
          (100, 0, 0)) (356, 0, 0))
      (chunkKeyOf (100, 0, 0)) = some (generateChunkPlanes sinZero 100 0 0) ∧
    lookupKey (lruStep sinZero
        (lruStep sinZero
          (lruRun sinZero ((100, 0, 0) :: (101, 0, 0) :: lruWitnessMid) [])
          (100, 0, 0)) (356, 0, 0))
      (chunkKeyOf (101, 0, 0)) = none) := by
  have h1 : lruWitnessMid.length = MAX_PLANE_CACHE - 2 := by decide
  have h2 : ((((100, 0, 0) : Int × Int × Int) :: ((101, 0, 0) : Int × Int × Int) ::
      (lruWitnessMid ++ [((356, 0, 0) : Int × Int × Int)])).map
        chunkKeyOf).Nodup :=
    nodup_of_strChainLt _ (by decide)
  exact ⟨⟨h1, h2⟩,
    planeCache_true_lru sinZero (100, 0, 0) (101, 0, 0) (356, 0, 0)
      lruWitnessMid h1 h2⟩

/-! ### src/lib/fade-manager.ts -/

structure FadeEntry where
  imageOpacity : ℚ
  placeholderOpacity : ℚ
deriving DecidableEq, Repr

/-- The material / mesh fields the animator writes each tick. -/
structure FadeMats where
  imageOpacity : ℚ
  placeholderOpacity : ℚ
  imageVisible : Bool
  placeholderVisible : Bool
  imageDepthWrite : Bool
deriving DecidableEq, Repr

structure FadeState where
  activeFades : List (String × FadeEntry)
  mats : List (String × FadeMats)
  isAnimating : Bool
deriving DecidableEq, Repr

/-- `startFade(id, ...)`: register the transition with image opacity 0 and
placeholder opacity 1, and start the loop if it is not running. -/
def startFade (id : String) (s : FadeState) : FadeState :=
  { s with
    activeFades := setKey s.activeFades id ⟨0, 1⟩
    isAnimating := true }

/-- `removeFade(id)`: unconditional removal from active tracking. -/
def removeFade (id : String) (s : FadeState) : FadeState :=
  { s with activeFades := eraseKey s.activeFades id }

/-- Per-entry update of one `animate` tick: advance both opacities with
clamping. -/
def stepEntry (e : FadeEntry) : FadeEntry :=
  ⟨min 1 (e.imageOpacity + FADE_IN_SPEED),
    max 0 (e.placeholderOpacity - FADE_OUT_SPEED)⟩

/-- The material fields `animate` writes for an updated entry: opacities,
visibility thresholds at 0.01, and depth-write once opacity exceeds 0.99. -/
def entryMats (e : FadeEntry) : FadeMats :=
  { imageOpacity := e.imageOpacity
    placeholderOpacity := e.placeholderOpacity
    imageVisible := decide (e.imageOpacity > 1 / 100)
    placeholderVisible := decide (e.placeholderOpacity > 1 / 100)
    imageDepthWrite := decide (e.imageOpacity > 99 / 100) }

/-- Completion test: image fully opaque and placeholder fully transparent. -/
def fadeComplete (e : FadeEntry) : Bool :=
  decide (1 ≤ e.imageOpacity) && decide (e.placeholderOpacity ≤ 0)

/-- One `animate` tick: update every registered entry, apply the values to
its materials, drop completed entries, and keep the loop scheduled only if
entries remain. -/
def animate (s : FadeState) : FadeState :=
  let stepped := s.activeFades.map (fun p => (p.1, stepEntry p.2))
  { activeFades := stepped.filter (fun p => !(fadeComplete p.2))
    mats := stepped.foldl (fun m p => setKey m p.1 (entryMats p.2)) s.mats
    isAnimating := !(stepped.filter (fun p => !(fadeComplete p.2))).isEmpty }

/-- The empty animator state. -/
def fadeInit : FadeState := ⟨[], [], false⟩

/-- C7: fade convergence. (a) On every tick each entry's image opacity is
non-decreasing and its placeholder opacity non-increasing, both clamped to
`[0, 1]`. (b) `N = ceil(1 / FADE_IN_SPEED) = 13`. (c) `startFade` from the
idle animator followed by 13 ticks: on every intermediate tick the entry is
still tracked and the loop scheduled; after tick 13 the entry is removed,
its image material has opacity 1 with depth-write enabled, its placeholder
has opacity 0 and is invisible, and the loop halts (no further tick
scheduled). -/
theorem fadeAnimator_converges :
    (∀ e : FadeEntry, 0 ≤ e.imageOpacity → e.imageOpacity ≤ 1 →
      0 ≤ e.placeholderOpacity → e.placeholderOpacity ≤ 1 →
      (e.imageOpacity ≤ (stepEntry e).imageOpacity ∧
        0 ≤ (stepEntry e).imageOpacity ∧ (stepEntry e).imageOpacity ≤ 1) ∧
      ((stepEntry e).placeholderOpacity ≤ e.placeholderOpacity ∧
        0 ≤ (stepEntry e).placeholderOpacity ∧
        (stepEntry e).placeholderOpacity ≤ 1)) ∧
    (⌈(1 : ℚ) / FADE_IN_SPEED⌉ : Int) = 13 ∧
    (∀ k, k < 13 →
      (animate^[k] (startFade "p" fadeInit)).activeFades.map Prod.fst = ["p"] ∧
      (animate^[k] (startFade "p" fadeInit)).isAnimating = true) ∧
    (animate^[13] (startFade "p" fadeInit)).activeFades = [] ∧
    (animate^[13] (startFade "p" fadeInit)).isAnimating = false ∧
    lookupKey (animate^[13] (startFade "p" fadeInit)).mats "p" =
      some ⟨1, 0, true, false, true⟩ := by
  refine ⟨?_, by decide, by decide, by decide, by decide, by decide⟩
  intro e h1 h2 h3 h4
  unfold stepEntry FADE_IN_SPEED FADE_OUT_SPEED
  refine ⟨⟨le_min h2 (by linarith), le_min (by norm_num) (by linarith),
    min_le_left _ _⟩,
    ⟨max_le h3 (by linarith), le_max_left _ _,
      max_le (by norm_num) (by linarith)⟩⟩

/-- Witness for C7: the per-tick monotonicity hypotheses are discharged at
the freshly registered entry `(0, 1)`. -/
theorem fadeAnimator_converges_witness :
    (0 ≤ (0 : ℚ) ∧ (0 : ℚ) ≤ 1 ∧ 0 ≤ (1 : ℚ) ∧ (1 : ℚ) ≤ 1) ∧
    (((⟨0, 1⟩ : FadeEntry).imageOpacity ≤ (stepEntry ⟨0, 1⟩).imageOpacity ∧
      0 ≤ (stepEntry (⟨0, 1⟩ : FadeEntry)).imageOpacity ∧
      (stepEntry (⟨0, 1⟩ : FadeEntry)).imageOpacity ≤ 1) ∧
    ((stepEntry (⟨0, 1⟩ : FadeEntry)).placeholderOpacity ≤
        (⟨0, 1⟩ : FadeEntry).placeholderOpacity ∧
      0 ≤ (stepEntry (⟨0, 1⟩ : FadeEntry)).placeholderOpacity ∧
      (stepEntry (⟨0, 1⟩ : FadeEntry)).placeholderOpacity ≤ 1)) :=
  ⟨⟨by norm_num, by norm_num, by norm_num, by norm_num⟩,
    fadeAnimator_converges.1 ⟨0, 1⟩ (by norm_num) (by norm_num) (by norm_num)
      (by norm_num)⟩

/-! ### src/lib/chunk-utils.ts + scene.tsx : throttled chunk updates -/

/-- `getChunkUpdateThrottleMs(isZooming, zoomSpeed)`: 500ms above zoom speed
1.0, 400ms while zooming, 100ms baseline. -/
def getChunkUpdateThrottleMs (isZooming : Bool) (zoomSpeed : ℚ) : ℚ :=
  if zoomSpeed > 1 then 500 else if isZooming then 400 else 100

/-- `shouldThrottleUpdate(lastUpdate, throttleMs, now)`: true when enough
time has passed to apply a pending update. -/
def shouldThrottleUpdate (lastUpdate throttleMs now : ℚ) : Bool :=
  decide (now - lastUpdate ≥ throttleMs)

/-- The chunk-update fragment of the scene controller state. -/
structure ChunkState where
  lastChunkKey : String
  lastChunkUpdate : ℚ
  pendingChunk : Option (Int × Int × Int)
  activeChunks : List (Int × Int × Int)
deriving DecidableEq, Repr

/-- The key of a tick's camera chunk coordinate. -/
def coordKey (c : Int × Int × Int) : String := mkChunkKey c.1 c.2.1 c.2.2

/-- One `useFrame` pass of the chunk-update logic (scene.tsx lines 505-534):
mark a pending chunk on a boundary crossing (overwriting any previous
pending marker), then apply the pending chunk only if the zoom-dependent
throttle interval has elapsed since the last applied update. `c` is the
camera's chunk coordinate, `vz` the z velocity, `now` the clock.
`isZooming` is `|velocity.z| > 0.05`. -/
def chunkTick (s : ChunkState) (c : Int × Int × Int) (vz : ℚ) (now : ℚ) :
    ChunkState :=
  let key := coordKey c
  let s1 := if key ≠ s.lastChunkKey then
      { s with pendingChunk := some c, lastChunkKey := key }
    else s
  let throttleMs := getChunkUpdateThrottleMs (decide (|vz| > 1 / 20)) (|vz|)
  match s1.pendingChunk with
  | some p =>
      if shouldThrottleUpdate s1.lastChunkUpdate throttleMs now then
        { s1 with
          pendingChunk := none
          lastChunkUpdate := now
          activeChunks := appliedChunkSet p }
      else s1
  | none => s1

/-- A sequence of ticks, each given by (chunk coordinate, z velocity, now). -/
def runChunkTicks (s : ChunkState)
    (inputs : List ((Int × Int × Int) × ℚ × ℚ)) : ChunkState :=
  inputs.foldl (fun st i => chunkTick st i.1 i.2.1 i.2.2) s

theorem throttle_ge_100 (z : Bool) (v : ℚ) :
    100 ≤ getChunkUpdateThrottleMs z v := by
  unfold getChunkUpdateThrottleMs
  split_ifs <;> norm_num

theorem throttle_le_500 (z : Bool) (v : ℚ) :
    getChunkUpdateThrottleMs z v ≤ 500 := by
  unfold getChunkUpdateThrottleMs
  split_ifs <;> norm_num

/-- A tick whose clock lies strictly within 100ms of the last applied
update applies nothing, regardless of zoom state; a boundary crossing
overwrites the pending marker. -/
theorem chunkTick_throttled (s : ChunkState) (c : Int × Int × Int)
    (vz now : ℚ) (h : now - s.lastChunkUpdate < 100) :
    (chunkTick s c vz now).activeChunks = s.activeChunks ∧
    (chunkTick s c vz now).lastChunkUpdate = s.lastChunkUpdate ∧
    (chunkTick s c vz now).pendingChunk =
      (if coordKey c ≠ s.lastChunkKey then some c else s.pendingChunk) ∧
    (chunkTick s c vz now).lastChunkKey =
      (if coordKey c ≠ s.lastChunkKey then coordKey c else s.lastChunkKey) := by
  have hgate : ∀ z v, shouldThrottleUpdate s.lastChunkUpdate
      (getChunkUpdateThrottleMs z v) now = false := by
    intro z v
    unfold shouldThrottleUpdate
    rw [decide_eq_false_iff_not]
    have := throttle_ge_100 z v
    intro hge
    linarith
  unfold chunkTick
  by_cases hk : coordKey c ≠ s.lastChunkKey
  · simp only [if_pos hk]
    simp [hk, hgate]
  · simp only [if_neg hk]
    cases hp : s.pendingChunk with
    | none => simp [hk, hp]
    | some p => simp [hk, hp, hgate]

theorem runChunkTicks_noApply (s : ChunkState)
    (inputs : List ((Int × Int × Int) × ℚ × ℚ))
    (hin : ∀ i ∈ inputs, i.2.2 - s.lastChunkUpdate < 100) :
    (runChunkTicks s inputs).activeChunks = s.activeChunks ∧
    (runChunkTicks s inputs).lastChunkUpdate = s.lastChunkUpdate := by
  induction inputs generalizing s with
  | nil => exact ⟨rfl, rfl⟩
  | cons i rest ih =>
    have ht := chunkTick_throttled s i.1 i.2.1 i.2.2 (hin i (by simp))
    have hrun : runChunkTicks s (i :: rest) =
        runChunkTicks (chunkTick s i.1 i.2.1 i.2.2) rest := rfl
    rw [hrun]
    have hin' : ∀ j ∈ rest,
        j.2.2 - (chunkTick s i.1 i.2.1 i.2.2).lastChunkUpdate < 100 := by
      intro j hj
      rw [ht.2.1]
      exact hin j (by simp [hj])
    have := ih (chunkTick s i.1 i.2.1 i.2.2) hin'
    exact ⟨this.1.trans ht.1, this.2.trans ht.2.1⟩

theorem runChunkTicks_pending (s : ChunkState)
    (front : List ((Int × Int × Int) × ℚ × ℚ))
    (lastI : (Int × Int × Int) × ℚ × ℚ)
    (hin : ∀ i ∈ front ++ [lastI], i.2.2 - s.lastChunkUpdate < 100)
    (hchain : List.Chain (fun a b => b ≠ a) s.lastChunkKey
      ((front ++ [lastI]).map (fun i => coordKey i.1))) :
    (runChunkTicks s (front ++ [lastI])).pendingChunk = some lastI.1 ∧
    (runChunkTicks s (front ++ [lastI])).lastChunkKey = coordKey lastI.1 := by
  induction front generalizing s with
  | nil =>
    rw [List.nil_append, List.map_cons, List.map_nil, List.chain_cons] at hchain
    have ht := chunkTick_throttled s lastI.1 lastI.2.1 lastI.2.2
      (hin lastI (by simp))
    have hrun : runChunkTicks s ([] ++ [lastI]) =
        chunkTick s lastI.1 lastI.2.1 lastI.2.2 := rfl
    rw [hrun, ht.2.2.1, ht.2.2.2, if_pos hchain.1, if_pos hchain.1]
    exact ⟨rfl, rfl⟩
  | cons i f ih =>
    rw [List.cons_append, List.map_cons, List.chain_cons] at hchain
    have ht := chunkTick_throttled s i.1 i.2.1 i.2.2 (hin i (by simp))
    have hrun : runChunkTicks s ((i :: f) ++ [lastI]) =
        runChunkTicks (chunkTick s i.1 i.2.1 i.2.2) (f ++ [lastI]) := rfl
    rw [hrun]
    apply ih
    · intro j hj
      rw [ht.2.1]
      exact hin j (by simp at hj ⊢; tauto)
    · rw [ht.2.2.2, if_pos hchain.1]
      exact hchain.2

/-- A tick whose camera chunk has not changed and whose clock is at least
500ms past the last applied update applies the pending chunk, whatever the
zoom state. -/
theorem chunkTick_applies (s : ChunkState) (p c : Int × Int × Int)
    (vz now : ℚ) (hp : s.pendingChunk = some p)
    (hk : coordKey c = s.lastChunkKey) (h : now - s.lastChunkUpdate ≥ 500) :
    (chunkTick s c vz now).activeChunks = appliedChunkSet p ∧
    (chunkTick s c vz now).pendingChunk = none ∧
    (chunkTick s c vz now).lastChunkUpdate = now := by
  have hgate : ∀ z v, shouldThrottleUpdate s.lastChunkUpdate
      (getChunkUpdateThrottleMs z v) now = true := by
    intro z v
    unfold shouldThrottleUpdate
    rw [decide_eq_true_eq]
    have := throttle_le_500 z v
    linarith
  unfold chunkTick
  simp [hk, hp, hgate]

/-- C8: chunk-update throttling. The throttle interval is 100ms at rest,
grows with zoom speed up to 500ms while rapidly zooming, and is always in
`[100, 500]`. A boundary crossing within the throttle interval overwrites
the single pending chunk marker (last-write-wins) and applies nothing. For
a rapid burst of boundary crossings all within the interval followed by a
late-enough tick at the final resting chunk: no intermediate prefix of the
burst ever changes the active chunk set, the pending marker holds exactly
the final coordinate, and the late tick applies exactly the final resting
coordinate's neighbourhood. -/
theorem chunkUpdates_throttled_lastWriteWins :
    getChunkUpdateThrottleMs false 0 = 100 ∧
    (∀ (z : Bool) (v : ℚ), 1 < v → getChunkUpdateThrottleMs z v = 500) ∧
    (∀ (z : Bool) (v : ℚ), 100 ≤ getChunkUpdateThrottleMs z v ∧
      getChunkUpdateThrottleMs z v ≤ 500) ∧
    (∀ (z : Bool) (v w : ℚ), v ≤ w →
      getChunkUpdateThrottleMs z v ≤ getChunkUpdateThrottleMs z w) ∧
    (∀ (s : ChunkState) (c : Int × Int × Int) (vz now : ℚ),
      now - s.lastChunkUpdate < 100 → coordKey c ≠ s.lastChunkKey →
      (chunkTick s c vz now).pendingChunk = some c ∧
      (chunkTick s c vz now).activeChunks = s.activeChunks) ∧
    (∀ (s : ChunkState) (front : List ((Int × Int × Int) × ℚ × ℚ))
      (lastI : (Int × Int × Int) × ℚ × ℚ) (c : Int × Int × Int) (vz now : ℚ),
      (∀ i ∈ front ++ [lastI], i.2.2 - s.lastChunkUpdate < 100) →
      List.Chain (fun a b => b ≠ a) s.lastChunkKey
        ((front ++ [lastI]).map (fun i => coordKey i.1)) →
      coordKey c = coordKey lastI.1 →
      now - s.lastChunkUpdate ≥ 500 →
      (∀ pre suf, front ++ [lastI] = pre ++ suf →
        (runChunkTicks s pre).activeChunks = s.activeChunks) ∧
      (runChunkTicks s (front ++ [lastI])).pendingChunk = some lastI.1 ∧
      (chunkTick (runChunkTicks s (front ++ [lastI])) c vz now).activeChunks =
        appliedChunkSet lastI.1) := by
  refine ⟨rfl, ?_, ?_, ?_, ?_, ?_⟩
  · intro z v hv
    unfold getChunkUpdateThrottleMs
    rw [if_pos hv]
  · exact fun z v => ⟨throttle_ge_100 z v, throttle_le_500 z v⟩
  · intro z v w hvw
    unfold getChunkUpdateThrottleMs
    split_ifs <;> push_neg at * <;> linarith
  · intro s c vz now hlt hk
    have ht := chunkTick_throttled s c vz now hlt
    exact ⟨ht.2.2.1.trans (if_pos hk), ht.1⟩
  · intro s front lastI c vz now hin hchain hkey hnow
    have hP := runChunkTicks_pending s front lastI hin hchain
    have hNA := runChunkTicks_noApply s (front ++ [lastI]) hin
    refine ⟨?_, hP.1, ?_⟩
    · intro pre suf heq
      apply (runChunkTicks_noApply s pre ?_).1
      intro i hi
      apply hin
      rw [heq]
      exact List.mem_append_left _ hi
    · apply (chunkTick_applies _ lastI.1 c vz now hP.1 ?_ ?_).1
      · rw [hP.2]
        exact hkey
      · rw [hNA.2]
        exact hnow

/-- Initial controller chunk state for the C8 witness: last applied update
at time 0, centred on chunk `(0,0,0)`, nothing pending. -/
def c8s0 : ChunkState :=
  ⟨coordKey (0, 0, 0), 0, none, appliedChunkSet (0, 0, 0)⟩

/-- Witness for C8: a two-crossing burst at times 50 and 80 (both inside
the 100ms baseline interval) followed by an applying tick at time 600,
starting from `c8s0`. -/
theorem chunkUpdates_throttled_lastWriteWins_witness :
    ((1 : ℚ) < 2 ∧ getChunkUpdateThrottleMs true 2 = 500) ∧
    ((50 : ℚ) - c8s0.lastChunkUpdate < 100 ∧
      coordKey (1, 0, 0) ≠ c8s0.lastChunkKey ∧
      (chunkTick c8s0 (1, 0, 0) 0 50).pendingChunk = some (1, 0, 0) ∧
      (chunkTick c8s0 (1, 0, 0) 0 50).activeChunks = c8s0.activeChunks) ∧
    ((runChunkTicks c8s0 ([((1, 0, 0), 0, 50)] ++ [((2, 0, 0), 0, 80)])).pendingChunk =
      some (2, 0, 0) ∧
    (chunkTick (runChunkTicks c8s0 ([((1, 0, 0), 0, 50)] ++ [((2, 0, 0), 0, 80)]))
        (2, 0, 0) 0 600).activeChunks = appliedChunkSet (2, 0, 0)) := by
  have h1 : (50 : ℚ) - c8s0.lastChunkUpdate < 100 := by decide
  have h2 : coordKey (1, 0, 0) ≠ c8s0.lastChunkKey := by decide
  have hin : ∀ i ∈ [(((1, 0, 0) : Int × Int × Int), (0 : ℚ), (50 : ℚ))] ++
      [(((2, 0, 0) : Int × Int × Int), (0 : ℚ), (80 : ℚ))],
      i.2.2 - c8s0.lastChunkUpdate < 100 := by decide
  have hchain : List.Chain (fun a b => b ≠ a) c8s0.lastChunkKey
      (([(((1, 0, 0) : Int × Int × Int), (0 : ℚ), (50 : ℚ))] ++
        [(((2, 0, 0) : Int × Int × Int), (0 : ℚ), (80 : ℚ))]).map
          (fun i => coordKey i.1)) := by
    simp only [List.cons_append, List.nil_append, List.map_cons, List.map_nil]
    exact List.Chain.cons (by decide) (List.Chain.cons (by decide) List.Chain.nil)
  have h6 := chunkUpdates_throttled_lastWriteWins.2.2.2.2.2 c8s0
    [((1, 0, 0), 0, 50)] ((2, 0, 0), 0, 80) (2, 0, 0) 0 600 hin hchain rfl
    (by decide)
  exact ⟨⟨by norm_num, chunkUpdates_throttled_lastWriteWins.2.1 true 2 (by norm_num)⟩,
    ⟨h1, h2, (chunkUpdates_throttled_lastWriteWins.2.2.2.2.1 c8s0 (1, 0, 0) 0 50 h1 h2).1,
      (chunkUpdates_throttled_lastWriteWins.2.2.2.2.1 c8s0 (1, 0, 0) 0 50 h1 h2).2⟩,
    h6.2.1, h6.2.2⟩

/-! ### src/lib/texture-manager.ts

The async loader is modelled as a small-step system.  Each `processQueue`
invocation is a worker that drains the queue until it either starts a fetch
(suspending at the `await`, modelled by `startLoads` returning the started
URL) or exhausts the queue; the code after the `await` (insert / fire
callbacks / evict, or log the error, then the `finally` block) is
`finishLoad`.  Schedules compose these steps; `drainAll` is the sequential
schedule in which every started fetch completes before anything else runs. -/

structure Texture where
  image : Option Nat
deriving DecidableEq, Repr

structure TexState where
  textureCache : List (String × Texture)
  loadCallbacks : List (String × List Nat)
  textureLastUsed : List (String × ℚ)
  loadQueue : List String
  activeLoads : Nat
  loadingUrls : List String
  nextBitmap : Nat
  firedLog : List (Nat × Texture)
  fetchLog : List String
  disposeLog : List String
  errorLog : List String
deriving DecidableEq, Repr

def texInit : TexState := ⟨[], [], [], [], 0, [], 0, [], [], [], []⟩

/-- `existing && existing.image` — the cache holds a ready texture. -/
def cacheHasImage (s : TexState) (url : String) : Bool :=
  match lookupKey s.textureCache url with
  | some tex => tex.image.isSome
  | none => false

/-- The sort relation of `evictOldTextures`: comparator `a[1] - b[1]`,
an ascending stable sort by last-used timestamp. -/
def lastUsedLE (a b : String × ℚ) : Prop := a.2 ≤ b.2

instance : DecidableRel lastUsedLE :=
  fun a b => inferInstanceAs (Decidable (a.2 ≤ b.2))

/-- `evictOldTextures()`: if the cache is over `MAX_CACHE_SIZE`, sort the
last-used entries by timestamp ascending and walk the first
`cache.size - MAX_CACHE_SIZE` of them; each one still present in the cache
is disposed and removed from both maps, entries absent from the cache are
skipped. -/
def evictOldTextures (s : TexState) : TexState :=
  if s.textureCache.length ≤ MAX_CACHE_SIZE then s
  else
    let entries := s.textureLastUsed.insertionSort lastUsedLE
    let toRemove := s.textureCache.length - MAX_CACHE_SIZE
    (entries.take toRemove).foldl (fun st e =>
      match lookupKey st.textureCache e.1 with
      | some _ =>
          { st with
            disposeLog := st.disposeLog ++ [e.1]
            textureCache := eraseKey st.textureCache e.1
            textureLastUsed := eraseKey st.textureLastUsed e.1 }
      | none => st) s

/-- `loadCallbacks.get(url).add(cb)` with `Set` semantics (create the set if
absent, ignore a duplicate callback). -/
def addCallback (l : List (String × List Nat)) (url : String) (cb : Nat) :
    List (String × List Nat) :=
  match lookupKey l url with
  | some cbs => setKey l url (if cb ∈ cbs then cbs else cbs ++ [cb])
  | none => l ++ [(url, [cb])]

/-- The queueing tail of `getTexture` (lines 142-157). -/
def getTextureQueue (url : String) (onLoad : Option Nat) (s : TexState) :
    TexState :=
  let s2 := match onLoad with
    | some cb => { s with loadCallbacks := addCallback s.loadCallbacks url cb }
    | none => s
  if url ∈ s2.loadingUrls ∨ url ∈ s2.loadQueue then s2
  else { s2 with loadQueue := s2.loadQueue ++ [url] }

/-- `getTexture(item, onLoad?)` (without its trailing `processQueue()` call,
which is modelled as explicit worker steps): refresh the last-used stamp;
fire the callback at once on a ready cached texture; otherwise register the
callback, and enqueue the URL unless it is already queued or loading. -/
def getTexture (url : String) (onLoad : Option Nat) (now : ℚ) (s : TexState) :
    TexState :=
  let s1 := { s with textureLastUsed := setKey s.textureLastUsed url now }
  match lookupKey s1.textureCache url with
  | some tex =>
      if tex.image.isSome then
        match onLoad with
        | some cb => { s1 with firedLog := s1.firedLog ++ [(cb, tex)] }
        | none => s1
      else getTextureQueue url onLoad s1
  | none => getTextureQueue url onLoad s1

/-- Start the fetch of `url` (lines 66-70 up to the `await`). -/
def startFetch (url : String) (s : TexState) : TexState × Option String :=
  ({ s with
      activeLoads := s.activeLoads + 1
      loadingUrls := s.loadingUrls ++ [url]
      fetchLog := s.fetchLog ++ [url] }, some url)

/-- One `processQueue` invocation, run until its first `await` (returning
the URL whose fetch it started) or until the loop exits. The fuel is the
queue length; each iteration shifts one URL. -/
def startLoadsAux : Nat → TexState → TexState × Option String
  | 0, s => (s, none)
  | fuel + 1, s =>
    if s.activeLoads < MAX_CONCURRENT_LOADS then
      match s.loadQueue with
      | [] => (s, none)
      | url :: rest =>
          let s1 := { s with loadQueue := rest }
          if url ∈ s1.loadingUrls then startLoadsAux fuel s1
          else
            match lookupKey s1.textureCache url with
            | some tex =>
                if tex.image.isSome then
                  startLoadsAux fuel
                    { s1 with
                      firedLog := s1.firedLog ++
                        ((lookupKey s1.loadCallbacks url).getD []).map
                          (fun cb => (cb, tex))
                      loadCallbacks := eraseKey s1.loadCallbacks url }
                else startFetch url s1
            | none => startFetch url s1
    else (s, none)

def startLoads (s : TexState) : TexState × Option String :=
  startLoadsAux s.loadQueue.length s

def removeStr (l : List String) (u : String) : List String :=
  l.filter (fun x => decide (x ≠ u))

/-- The continuation of `processQueue` after the `await` for `url`: on
success create the texture, insert it into the cache, refresh the last-used
stamp, fire the waiting callbacks in registration order, and evict; on
failure log the error.  In all cases the `finally` block releases the slot
and removes the URL from the in-flight set. -/
def finishLoad (url : String) (ok : Bool) (now : ℚ) (s : TexState) : TexState :=
  let s1 :=
    if ok then
      let tex : Texture := ⟨some s.nextBitmap⟩
      evictOldTextures
        { s with
          nextBitmap := s.nextBitmap + 1
          textureCache := setKey s.textureCache url tex
          textureLastUsed := setKey s.textureLastUsed url now
          firedLog := s.firedLog ++
            ((lookupKey s.loadCallbacks url).getD []).map (fun cb => (cb, tex))
          loadCallbacks := eraseKey s.loadCallbacks url }
    else { s with errorLog := s.errorLog ++ [url] }
  { s1 with
    activeLoads := s1.activeLoads - 1
    loadingUrls := removeStr s1.loadingUrls url }

/-- `getCachedTexture(url)`: direct synchronous cache lookup, a ready
texture or `null`; performs no writes. -/
def getCachedTexture (s : TexState) (url : String) : Option Texture :=
  match lookupKey s.textureCache url with
  | some tex => if tex.image.isSome then some tex else none
  | none => none

/-- The sequential schedule: repeatedly run a worker and complete the fetch
it started (success iff `fails url` is false) until the queue is empty. -/
def drainAll (fails : String → Bool) (tm : ℚ) : Nat → TexState → TexState
  | 0, s => s
  | fuel + 1, s =>
      match startLoads s with
      | (s', none) => s'
      | (s', some url) => drainAll fails tm fuel (finishLoad url (!fails url) tm s')

def drain (fails : String → Bool) (tm : ℚ) (s : TexState) : TexState :=
  drainAll fails tm s.loadQueue.length s

/-- `preloadAllTextures(items, onProgress)` under the sequential schedule:
the returned triple is the final loader state, the list of reported
progress values, and whether the promise resolved (`loaded === total`). An
item already cached reports progress at once; otherwise the item's
callback (identified by the item index) reports progress if and when it
fires. -/
def preloadAllTextures (fails : String → Bool) (items : List MediaItem)
    (s : TexState) : TexState × List ℚ × Bool :=
  let total := items.length
  if total = 0 then (s, [1], true)
  else
    let r := items.enum.foldl (fun acc p =>
      let idx := p.1
      let st := acc.1
      let loaded := acc.2.1
      let log := acc.2.2
      if cacheHasImage st p.2.url then
        (st, loaded + 1, log ++ [((loaded + 1 : Nat) : ℚ) / (total : ℚ)])
      else
        let st1 := getTexture p.2.url (some idx) (idx : ℚ) st
        let st2 := drain fails (idx : ℚ) st1
        if (st2.firedLog.drop st1.firedLog.length).any (fun e => e.1 == idx) then
          (st2, loaded + 1, log ++ [((loaded + 1 : Nat) : ℚ) / (total : ℚ)])
        else (st2, loaded, log)) (s, 0, [])
    (r.1, r.2.2, decide (r.2.1 = total))

theorem not_mem_keys_of_lookupKey_eq_none {κ ν : Type} [DecidableEq κ]
    {l : List (κ × ν)} {k : κ} (h : lookupKey l k = none) :
    k ∉ l.map Prod.fst := by
  induction l with
  | nil => simp
  | cons e rest ih =>
    obtain ⟨k', v⟩ := e
    by_cases hk : k' = k
    · subst hk
      rw [lookupKey, if_pos rfl] at h
      cases h
    · rw [lookupKey, if_neg hk] at h
      simp only [List.map_cons, List.mem_cons]
      push_neg
      exact ⟨fun he => hk he.symm, ih h⟩

theorem setKey_eq_append_of_not_mem {κ ν : Type} [DecidableEq κ]
    {l : List (κ × ν)} {k : κ} (v : ν) (h : k ∉ l.map Prod.fst) :
    setKey l k v = l ++ [(k, v)] := by
  induction l with
  | nil => rfl
  | cons e rest ih =>
    obtain ⟨k', v'⟩ := e
    simp only [List.map_cons, List.mem_cons] at h
    push_neg at h
    rw [setKey, if_neg (Ne.symm h.1), List.cons_append, ih h.2]

theorem setKey_append_right {κ ν : Type} [DecidableEq κ]
    {l₁ : List (κ × ν)} (l₂ : List (κ × ν)) {k : κ} (v : ν)
    (h : k ∉ l₁.map Prod.fst) :
    setKey (l₁ ++ l₂) k v = l₁ ++ setKey l₂ k v := by
  induction l₁ with
  | nil => rfl
  | cons e rest ih =>
    obtain ⟨k', v'⟩ := e
    simp only [List.map_cons, List.mem_cons] at h
    push_neg at h
    rw [List.cons_append, setKey, if_neg (Ne.symm h.1), List.cons_append, ih h.2]

theorem setKey_cons_eq {κ ν : Type} [DecidableEq κ] (k : κ) (v' v : ν)
    (l : List (κ × ν)) : setKey ((k, v') :: l) k v = (k, v) :: l := by
  rw [setKey, if_pos rfl]

theorem lookupKey_setKey_self {κ ν : Type} [DecidableEq κ]
    (l : List (κ × ν)) (k : κ) (v : ν) :
    lookupKey (setKey l k v) k = some v := by
  induction l with
  | nil => simp [setKey, lookupKey]
  | cons e rest ih =>
    obtain ⟨k', v'⟩ := e
    by_cases hk : k' = k
    · subst hk
      rw [setKey_cons_eq, lookupKey, if_pos rfl]
    · rw [setKey, if_neg hk, lookupKey, if_neg hk]
      exact ih

/-- The 45-item manifest of the cold-start scenario, with URLs
`u0, ..., u44`. -/
def c1items : List MediaItem :=
  (List.range 45).map (fun i => ⟨"u" ++ toString i, 1, 1, none⟩)

/-- C1 (failing evaluation): on the 45-item manifest whose first URL's
fetch fails terminally, `preloadAllTextures` reports only 44 progress
increments (final value 44/45, not 1.0) and its promise never resolves —
the failed item's callback is never invoked, so its increment never
happens —, while the failure is only logged and the other 44 items load
normally; with no failures the promise does resolve after exactly 45
increments with final progress 1. -/
theorem preloadAll_failure_never_resolves :
    (preloadAllTextures (fun u => u == "u0") c1items texInit).2.2 = false ∧
    (preloadAllTextures (fun u => u == "u0") c1items texInit).2.1.length = 44 ∧
    (preloadAllTextures (fun u => u == "u0") c1items texInit).2.1.getLast? =
      some (44 / 45 : ℚ) ∧
    (preloadAllTextures (fun u => u == "u0") c1items texInit).1.errorLog =
      ["u0"] ∧
    (preloadAllTextures (fun u => u == "u0")
      c1items texInit).1.textureCache.length = 44 ∧
    (preloadAllTextures (fun _ => false) c1items texInit).2.2 = true ∧
    (preloadAllTextures (fun _ => false) c1items texInit).2.1.length = 45 ∧
    (preloadAllTextures (fun _ => false) c1items texInit).2.1.getLast? =
      some 1 := by
  decide

/-- C2: two concurrent `getTexture` requests for the same uncached URL
(the second arriving while the first fetch is in flight) start exactly one
fetch+decode; the second request neither fetches nor re-queues; when the
fetch completes, both callbacks fire with the same texture handle, in
registration order, and that handle is the one inserted into the cache. -/
theorem getTexture_dedup_fanout (s : TexState) (u : String) (cb1 cb2 : Nat)
    (t1 t2 t3 : ℚ)
    (hcache : lookupKey s.textureCache u = none)
    (hqueue : s.loadQueue = [])
    (hloading : s.loadingUrls = [])
    (hactive : s.activeLoads = 0)
    (hcbs : lookupKey s.loadCallbacks u = none)
    (hne : cb1 ≠ cb2)
    (hsize : s.textureCache.length < MAX_CACHE_SIZE) :
    (startLoads (getTexture u (some cb1) t1 s)).2 = some u ∧
    (startLoads (getTexture u (some cb1) t1 s)).1.fetchLog =
      s.fetchLog ++ [u] ∧
    (getTexture u (some cb2) t2
      (startLoads (getTexture u (some cb1) t1 s)).1).fetchLog =
      s.fetchLog ++ [u] ∧
    (getTexture u (some cb2) t2
      (startLoads (getTexture u (some cb1) t1 s)).1).loadQueue = [] ∧
    (finishLoad u true t3 (getTexture u (some cb2) t2
      (startLoads (getTexture u (some cb1) t1 s)).1)).firedLog =
      s.firedLog ++ [(cb1, ⟨some s.nextBitmap⟩), (cb2, ⟨some s.nextBitmap⟩)] ∧
    lookupKey (finishLoad u true t3 (getTexture u (some cb2) t2
      (startLoads (getTexture u (some cb1) t1 s)).1)).textureCache u =
      some ⟨some s.nextBitmap⟩ := by
  have hnotmem := not_mem_keys_of_lookupKey_eq_none hcbs
  have hA : getTexture u (some cb1) t1 s =
      { s with
        textureLastUsed := setKey s.textureLastUsed u t1
        loadCallbacks := s.loadCallbacks ++ [(u, [cb1])]
        loadQueue := [u] } := by
    unfold getTexture getTextureQueue addCallback
    simp [hcache, hcbs, hqueue, hloading]
  have hB : startLoads (getTexture u (some cb1) t1 s) =
      ({ s with
          textureLastUsed := setKey s.textureLastUsed u t1
          loadCallbacks := s.loadCallbacks ++ [(u, [cb1])]
          loadQueue := []
          activeLoads := s.activeLoads + 1
          loadingUrls := s.loadingUrls ++ [u]
          fetchLog := s.fetchLog ++ [u] }, some u) := by
    rw [hA]
    unfold startLoads startLoadsAux startFetch
    simp [hcache, hloading, hactive, MAX_CONCURRENT_LOADS]
  have hC : getTexture u (some cb2) t2
      (startLoads (getTexture u (some cb1) t1 s)).1 =
      { s with
        textureLastUsed := setKey (setKey s.textureLastUsed u t1) u t2
        loadCallbacks := s.loadCallbacks ++ [(u, [cb1, cb2])]
        loadQueue := []
        activeLoads := s.activeLoads + 1
        loadingUrls := s.loadingUrls ++ [u]
        fetchLog := s.fetchLog ++ [u] } := by
    rw [hB]
    dsimp only
    unfold getTexture getTextureQueue addCallback
    dsimp only
    rw [lookupKey_append [(u, [cb1])] hnotmem]
    simp only [lookupKey, if_pos rfl, hcache, if_true]
    rw [setKey_append_right [(u, [cb1])] _ hnotmem, setKey_cons_eq]
    simp [Ne.symm hne]
  have hD : lookupKey (s.loadCallbacks ++ [(u, [cb1, cb2])]) u =
      some [cb1, cb2] := by
    rw [lookupKey_append [(u, [cb1, cb2])] hnotmem, lookupKey, if_pos rfl]
  have hcache2 : u ∉ s.textureCache.map Prod.fst :=
    not_mem_keys_of_lookupKey_eq_none hcache
  have hlen : (s.textureCache ++
      [(u, (⟨some s.nextBitmap⟩ : Texture))]).length ≤ MAX_CACHE_SIZE := by
    rw [List.length_append, List.length_singleton]
    omega
  refine ⟨by rw [hB], by rw [hB], by rw [hC], by rw [hC], ?_, ?_⟩
  · rw [hC]
    unfold finishLoad evictOldTextures
    rw [hD]
    simp only
    rw [setKey_eq_append_of_not_mem _ hcache2]
    rw [if_pos hlen]
    simp
  · rw [hC]
    unfold finishLoad evictOldTextures
    rw [hD]
    simp only
    rw [setKey_eq_append_of_not_mem _ hcache2]
    rw [if_pos hlen]
    simp only [if_true]
    rw [lookupKey_append [(u, ⟨some s.nextBitmap⟩)] hcache2, lookupKey,
      if_pos rfl]

/-- A texture-manager state as produced by normal operation: the cache
holds exactly `MAX_CACHE_SIZE` decoded textures `t1..t750` last used at
times `1..750`, `textureLastUsed` additionally holds a stale entry
`("A", 0)` for a URL whose load failed (so it never entered the cache), and
one more load (`"X"`) is in flight. -/
def c3state : TexState :=
  { textureCache := (List.range 750).map (fun i => ("t" ++ toString (i+1), ⟨some i⟩))
    loadCallbacks := []
    textureLastUsed :=
      ("A", 0) :: (List.range 750).map (fun i => ("t" ++ toString (i+1), ((i : ℚ)+1)))
    loadQueue := []
    activeLoads := 1
    loadingUrls := ["X"]
    nextBitmap := 900
    firedLog := []
    fetchLog := []
    disposeLog := []
    errorLog := [] }

/-- Witness for the dedup/fan-out theorem: the fresh loader, URL `"u"`, and
callbacks 0 and 1 satisfy the hypotheses, and both callbacks fire with the
single decoded texture. -/
theorem getTexture_dedup_fanout_witness :
    lookupKey texInit.textureCache "u" = none ∧
    (0 : Nat) ≠ 1 ∧
    (finishLoad "u" true 0 (getTexture "u" (some 1) 0
      (startLoads (getTexture "u" (some 0) 0 texInit)).1)).firedLog =
      texInit.firedLog ++
        [(0, ⟨some texInit.nextBitmap⟩), (1, ⟨some texInit.nextBitmap⟩)] :=
  ⟨rfl, by decide,
    (getTexture_dedup_fanout texInit "u" 0 1 0 0 0 rfl rfl rfl rfl rfl
      (by decide) (by decide)).2.2.2.2.1⟩

/-- C3: eviction fails to restore the cache to capacity. In `c3state` the
cache is exactly at `MAX_CACHE_SIZE` and `textureLastUsed` holds a stale
entry `("A", 0)` with no cached texture behind it. When the in-flight load
`"X"` completes, the cache reaches 751 entries and `evictOldTextures`
runs, but its single eviction slot lands on the stale `"A"` entry and is
skipped, so nothing is disposed and the cache stays over capacity. -/
theorem evictOldTextures_stale_entry_breaks_capacity :
    MAX_CACHE_SIZE = 750 ∧
    c3state.textureCache.length = MAX_CACHE_SIZE ∧
    lookupKey c3state.textureCache "A" = none ∧
    lookupKey c3state.textureLastUsed "A" = some 0 ∧
    (finishLoad "X" true 1000 c3state).textureCache.length = 751 ∧
    (finishLoad "X" true 1000 c3state).disposeLog = [] := by
  decide

/-- The state of `c3state` without the stale entry: the cache holds exactly
`MAX_CACHE_SIZE` decoded textures `t1..t750` last used at times `1..750`,
and the load of `"X"` is in flight. -/
def c4state : TexState :=
  { c3state with
    textureLastUsed :=
      (List.range 750).map (fun i => ("t" ++ toString (i+1), ((i : ℚ)+1))) }

/-- C4 counterexample: reading `"t1"` through `getCachedTexture` (as the
renderer does on every frame) does not refresh its last-used timestamp:
the lookup succeeds, yet when the in-flight load `"X"` completes moments
later, `"t1"` is still the oldest-by-recorded-timestamp entry and is the
one evicted and disposed. -/
theorem getCachedTexture_read_ignored_by_eviction :
    getCachedTexture c4state "t1" = some ⟨some 0⟩ ∧
    (finishLoad "X" true 1000 c4state).disposeLog = ["t1"] ∧
    lookupKey (finishLoad "X" true 1000 c4state).textureCache "t1" = none ∧
    lookupKey (finishLoad "X" true 1000 c4state).textureCache "X" =
      some ⟨some 900⟩ := by
  decide

/-- C4 (amended): `getCachedTexture` is a pure read: for a URL whose decoded
texture is cached it returns that texture and writes nothing, so the
last-used timestamp is refreshed only by the request path — `getTexture`
always stamps `textureLastUsed` for the requested URL with the current
time, whatever branch it takes. -/
theorem getCachedTexture_pure_read (s : TexState) (url : String)
    (tex : Texture)
    (h : lookupKey s.textureCache url = some tex)
    (hready : tex.image.isSome = true) :
    getCachedTexture s url = some tex ∧
    ∀ cb now, (getTexture url cb now s).textureLastUsed =
      setKey s.textureLastUsed url now := by
  constructor
  · unfold getCachedTexture
    simp only [h, hready, if_true]
  · intro cb now
    unfold getTexture
    dsimp only
    simp only [h, hready, if_true]
    cases cb <;> rfl

/-- A one-texture cache used to instantiate the pure-read theorem. -/
def c4wit : TexState :=
  { texInit with textureCache := [("u", ⟨some 5⟩)] }

/-- Witness for the pure-read theorem at a concrete one-entry cache and a
concrete request time. -/
theorem getCachedTexture_pure_read_witness :
    lookupKey c4wit.textureCache "u" = some ⟨some 5⟩ ∧
    getCachedTexture c4wit "u" = some ⟨some 5⟩ ∧
    (getTexture "u" none 7 c4wit).textureLastUsed =
      setKey c4wit.textureLastUsed "u" 7 :=
  ⟨rfl, (getCachedTexture_pure_read c4wit "u" ⟨some 5⟩ rfl rfl).1,
    (getCachedTexture_pure_read c4wit "u" ⟨some 5⟩ rfl rfl).2 none 7⟩

end Shoyo
